import Mathlib

/-!
# Verification of the zaparoo-label-automator core algorithms

Shallow embedding of the non-trivial algorithms of the repository:

* the batched paginated collector
  (`DataCollector._query_with_batching` in
  `zaparoo_label_automator/reference_data/igdb.py` and
  `IgdbScraper._fetch_games_batched` in
  `zaparoo_label_automator/igdb_scraper.py`),
* the record deduplicator (`DataCollector._deduplicate_records`),
* the platform-logo candidate selector
  (`PlatformLogoSelector.select_best_platform_logo` in
  `zaparoo_label_automator/platform_logo_selector.py`),
* the first-release resolver (ownership map), which is described in the
  specification but whose implementation is not part of the source tree;
  it is modelled from the specification text.

The page-fetching callback of the collector is abstracted as a function
`fetch : Nat → Nat → List α` taking the offset and the requested limit
and returning the page, exactly the data the Python code puts in the
query body (`limit L; offset O;`).
-/

namespace ZLA

/-! ## Paginated collector: `DataCollector._query_with_batching`

The Python `while offset < total_count` loop is rendered with an explicit
fuel argument; `total_count` units of fuel are enough for every run of
the Python loop in which `batch_limit ≥ 1`, since each iteration advances
`offset` by at least one.  (With `batch_limit = 0` the Python loop does
not terminate unless a page comes back empty.) -/

/-- One Python loop iteration of `_query_with_batching`: compute
`current_limit = min(batch_limit, total_count - offset)`, fetch the page,
extend `all_records`, count the batch, advance `offset`, and stop when the
page was empty (`if len(batch_records) == 0: break`). -/
def batchLoop (fetch : Nat → Nat → List α) (totalCount batchLimit : Nat) :
    Nat → Nat → List α → Nat → List α × Nat
  | 0, _, allRecords, batchesUsed => (allRecords, batchesUsed)
  | fuel + 1, offset, allRecords, batchesUsed =>
    if offset < totalCount then
      let currentLimit := min batchLimit (totalCount - offset)
      let batchRecords := fetch offset currentLimit
      if batchRecords.length = 0 then
        (allRecords ++ batchRecords, batchesUsed + 1)
      else
        batchLoop fetch totalCount batchLimit fuel (offset + currentLimit)
          (allRecords ++ batchRecords) (batchesUsed + 1)
    else (allRecords, batchesUsed)

/-- `DataCollector._query_with_batching`: returns the pair
`(all_records, batches_used)`.  With `total_count = 0` nothing is fetched;
with `total_count ≤ batch_limit` a single request is issued whose body
keeps the limit appended by `ConfigManager` (i.e. `batch_limit`);
otherwise the offset loop runs. -/
def queryWithBatching (fetch : Nat → Nat → List α)
    (totalCount batchLimit : Nat) : List α × Nat :=
  if totalCount = 0 then ([], 0)
  else if totalCount ≤ batchLimit then (fetch 0 batchLimit, 1)
  else batchLoop fetch totalCount batchLimit totalCount 0 [] 0

/-! ## Paginated collector: `IgdbScraper._fetch_games_batched` -/

/-- One Python loop iteration of `_fetch_games_batched`: compute
`batch_limit = min(upper_batch_limit, total_limit - offset)`, fetch,
extend, advance the offset, and stop when the page was short
(`if len(response) < batch_limit: break`). -/
def fetchGamesLoop (fetch : Nat → Nat → List α) (upperBatchLimit totalLimit : Nat) :
    Nat → Nat → List α → List α
  | 0, _, allGames => allGames
  | fuel + 1, offset, allGames =>
    if offset < totalLimit then
      let batchLimit := min upperBatchLimit (totalLimit - offset)
      let response := fetch offset batchLimit
      if response.length < batchLimit then
        allGames ++ response
      else
        fetchGamesLoop fetch upperBatchLimit totalLimit fuel (offset + batchLimit)
          (allGames ++ response)
    else allGames

/-- `IgdbScraper._fetch_games_batched`: collect `total_limit` games in
batches of at most `upper_batch_limit`. -/
def fetchGamesBatched (fetch : Nat → Nat → List α)
    (upperBatchLimit totalLimit : Nat) : List α :=
  fetchGamesLoop fetch upperBatchLimit totalLimit totalLimit 0 []

/-! ## Collector helper definitions -/

/-- `ceil(a / b)` on naturals, as `(a + b - 1) / b`. -/
def ceilDiv (a b : Nat) : Nat := (a + b - 1) / b

/-- Spec-side: the concatenation, in fetch order, of the pages the batched
loop requests starting from `offset` (each page requested with limit
`min batchLimit (totalCount - offset)`). -/
def pagesFrom (fetch : Nat → Nat → List α) (totalCount batchLimit : Nat) :
    Nat → Nat → List α
  | 0, _ => []
  | fuel + 1, offset =>
    if offset < totalCount then
      fetch offset (min batchLimit (totalCount - offset)) ++
        pagesFrom fetch totalCount batchLimit fuel
          (offset + min batchLimit (totalCount - offset))
    else []

/-- Spec-side: the concatenation of all pages the collector fetches: none
when the count is zero, the single page (requested with the original
limit) when the count fits in one batch, and the batched pages
otherwise. -/
def specCollectedPages (fetch : Nat → Nat → List α)
    (totalCount batchLimit : Nat) : List α :=
  if totalCount = 0 then []
  else if totalCount ≤ batchLimit then fetch 0 batchLimit
  else pagesFrom fetch totalCount batchLimit totalCount 0

/-- A fetch source holding only one record: the first page requested with
limit 2 comes back short but non-empty. -/
def exFetchShort : Nat → Nat → List Nat :=
  fun offset _limit => if offset = 0 then [10] else [20]

/-- A fetch source that always returns an empty page. -/
def exFetchEmpty : Nat → Nat → List Nat := fun _ _ => []

/-- A fetch source returning exactly the requested number of records. -/
def exFetchFull : Nat → Nat → List Nat :=
  fun offset limit => (List.range limit).map (· + offset)

/-! ## Deduplicator: `DataCollector._deduplicate_records` -/

/-- A collected record: the `id` field may be absent/null; the payload
stands for the remaining fields of the dictionary. -/
structure Record where
  id : Option Int
  payload : Nat
deriving DecidableEq, Repr

/-- The Python loop of `_deduplicate_records`, with the `seen_ids` set
modelled as the list of ids added so far: a record with a fresh id is
kept and its id remembered, a record with an already-seen id is dropped,
a record with no id is always kept. -/
def deduplicateAux (seen : List Int) : List Record → List Record
  | [] => []
  | r :: rs =>
    match r.id with
    | some i =>
      if i ∈ seen then deduplicateAux seen rs
      else r :: deduplicateAux (i :: seen) rs
    | none => r :: deduplicateAux seen rs

/-- `DataCollector._deduplicate_records`. -/
def deduplicateRecords (records : List Record) : List Record :=
  deduplicateAux [] records

/-- Whether some record in `prev` carries the id `i`. -/
def idSeenIn (i : Int) (prev : List Record) : Bool :=
  prev.any (fun p => p.id == some i)

/-- Spec-side rendering of the deduplicator contract, for comparison with
the code: walking the list with the prefix of already-walked records at
hand, a record is kept exactly when its id is absent or does not occur in
that prefix. -/
def specDedupAux (prev : List Record) : List Record → List Record
  | [] => []
  | r :: rs =>
    match r.id with
    | none => r :: specDedupAux (prev ++ [r]) rs
    | some i =>
      if idSeenIn i prev then specDedupAux (prev ++ [r]) rs
      else r :: specDedupAux (prev ++ [r]) rs

/-- Spec-side deduplication of a whole list. -/
def specDedup (records : List Record) : List Record :=
  specDedupAux [] records

/-! ## Candidate selector: `PlatformLogoSelector.select_best_platform_logo`

The relevant slice of the JSON data model: a platform-info dictionary
carries a `versions` list; each version optionally carries a
`platform_logo` (whose `image_id` may be absent or empty) and a list of
`platform_version_release_dates`, each with an optional `date` string and
an optional `release_region` holding a `region` string. -/

/-- Python strings are modelled as their character sequences, so that
comparison (`<` on `List Char` is the lexicographic order by code point,
as in Python), lowering, and equality all compute. -/
abbrev Str := List Char

/-- A platform-logo record; `imageId` is the `image_id` field (absent or
empty string are both falsy for the Python guard), `payload` stands for
the remaining fields. -/
structure PlatformLogo where
  imageId : Option Str
  payload : Nat
deriving DecidableEq, Repr

/-- The `release_region` sub-record. -/
structure ReleaseRegion where
  region : Str
deriving DecidableEq, Repr

/-- One entry of `platform_version_release_dates`. -/
structure VersionReleaseDate where
  date : Option Str
  releaseRegion : Option ReleaseRegion
deriving DecidableEq, Repr

/-- One entry of `versions`. -/
structure Version where
  platformLogo : Option PlatformLogo
  platformVersionReleaseDates : List VersionReleaseDate
  name : Option Str
deriving DecidableEq, Repr

/-- The platform-info dictionary (only the `versions` field is read by
the selector). -/
structure PlatformInfo where
  versions : List Version
deriving DecidableEq, Repr

/-- Python truthiness of `platform_logo.get('image_id')`: an absent field
and an empty string are both falsy. -/
def truthyImageId : Option Str → Bool
  | none => false
  | some s => s != []

/-- `release_date.get('release_region', {}).get('region', '').lower()`. -/
def regionOf (rd : VersionReleaseDate) : Str :=
  (match rd.releaseRegion with
   | none => []
   | some rr => rr.region).map Char.toLower

/-- `version.get('name', 'unknown')`. -/
def versionNameOf (v : Version) : Str := v.name.getD "unknown".data

/-- A flattened selection candidate, as built by the Python loop. -/
structure Candidate where
  platformLogo : PlatformLogo
  date : Option Str
  region : Str
  versionName : Str
deriving DecidableEq, Repr

/-- The dated candidates one version with release dates contributes. -/
def datedCandidates (v : Version) (logo : PlatformLogo) : List Candidate :=
  v.platformVersionReleaseDates.map fun rd =>
    { platformLogo := logo, date := rd.date, region := regionOf rd
      versionName := versionNameOf v }

/-- The fallback entry a version without release dates contributes. -/
def fallbackCandidate (v : Version) (logo : PlatformLogo) : Candidate :=
  { platformLogo := logo, date := none, region := "unknown".data
    versionName := versionNameOf v }

/-- The candidate-collection loop of `select_best_platform_logo`: walk
the versions, skip versions whose logo is missing or whose `image_id` is
falsy, and sort the rest into `(logo_candidates, fallback_logos)`. -/
def collectCandidates : List Version → List Candidate × List Candidate
  | [] => ([], [])
  | v :: vs =>
    let rest := collectCandidates vs
    match v.platformLogo with
    | none => rest
    | some logo =>
      if truthyImageId logo.imageId then
        match v.platformVersionReleaseDates with
        | [] => (rest.1, fallbackCandidate v logo :: rest.2)
        | _ :: _ => (datedCandidates v logo ++ rest.1, rest.2)
      else rest

/-- The sort key `x['date'] or '9999-12-31'`: a missing (or empty,
Python-falsy) date sorts as the sentinel maximal date. -/
def dateKey (c : Candidate) : Str :=
  match c.date with
  | none => "9999-12-31".data
  | some s => if s = [] then "9999-12-31".data else s

/-- Stable insertion of a candidate into a date-sorted list: the new
candidate goes before every later-listed candidate with the same key,
matching the stability of Python list sort. -/
def insertCand (c : Candidate) : List Candidate → List Candidate
  | [] => [c]
  | d :: ds => if dateKey d < dateKey c then d :: insertCand c ds else c :: d :: ds

/-- Stable sort by `dateKey` (Python `list.sort(key=...)`). -/
def sortCands : List Candidate → List Candidate
  | [] => []
  | c :: cs => insertCand c (sortCands cs)

/-- The guard under which a version contributes nothing: its
`platform_logo` is missing or its `image_id` is absent/empty. -/
def logoExcluded (v : Version) : Bool :=
  match v.platformLogo with
  | none => true
  | some logo => !truthyImageId logo.imageId

/-- `select_best_platform_logo` on the versions list: empty versions give
`None`; with dated candidates the earliest `europe`, then `japan`, then
any-region candidate wins; with only fallback entries the first one is
returned; otherwise `None`. -/
def selectBestFromVersions (versions : List Version) : Option PlatformLogo :=
  match versions with
  | [] => none
  | _ :: _ =>
    match (collectCandidates versions).1, (collectCandidates versions).2 with
    | [], [] => none
    | [], f :: _ => some f.platformLogo
    | _ :: _, _ =>
      match sortCands ((collectCandidates versions).1.filter fun c => c.region == "europe".data) with
      | e :: _ => some e.platformLogo
      | [] =>
        match sortCands ((collectCandidates versions).1.filter fun c => c.region == "japan".data) with
        | j :: _ => some j.platformLogo
        | [] =>
          match sortCands (collectCandidates versions).1 with
          | c :: _ => some c.platformLogo
          | [] => none

/-- `PlatformLogoSelector.select_best_platform_logo`. -/
def selectBestPlatformLogo (p : PlatformInfo) : Option PlatformLogo :=
  selectBestFromVersions p.versions

/-! ## First-release resolver (ownership map)

The first-release resolver is described in §4.3 of the specification but
its implementation is not part of the source tree; the definitions below
are modelled from the specification text. -/

/-- A game as seen by the resolver: optional numeric id (absent or `0`
is falsy and skipped), a name, an optional `first_release_date` string,
and the optional `date` fields of its `release_dates` entries. -/
structure FRGame where
  id : Option Nat
  name : Str
  firstReleaseDate : Option Str
  releaseDates : List (Option Str)
deriving DecidableEq, Repr

/-- A group (platform): id and name. -/
structure FRGroup where
  id : Nat
  name : Str
deriving DecidableEq, Repr

/-- One ownership-map entry. -/
structure OwnEntry where
  earliestDate : Option Str
  groupId : Nat
  groupName : Str
  gameName : Str
deriving DecidableEq, Repr

/-- Minimum (lexicographic string compare) over the present dates of a
`release_dates` list, `none` when no date is present. -/
def minDate (ds : List (Option Str)) : Option Str :=
  ds.foldl
    (fun acc d =>
      match acc, d with
      | none, d => d
      | some a, none => some a
      | some a, some b => some (if b < a then b else a))
    none

/-- Modelled from the spec: `earliestDate(game)` — use
`first_release_date` when present and non-empty, else the minimum over
the `release_dates[].date` entries, else `None`. -/
def earliestDate (g : FRGame) : Option Str :=
  match g.firstReleaseDate with
  | some s => if s = [] then minDate g.releaseDates else some s
  | none => minDate g.releaseDates

/-- Modelled from the spec: a game with absent/falsy id is skipped. -/
def gameKey (g : FRGame) : Option Nat :=
  match g.id with
  | none => none
  | some 0 => none
  | some i => some i

/-- Modelled from the spec: the replacement precedence of §4.3 — new date
present while existing absent; both present and strictly earlier; both
present and equal with a strictly lower group id; otherwise keep. -/
def shouldReplace (newDate : Option Str) (newGid : Nat)
    (exDate : Option Str) (exGid : Nat) : Bool :=
  match newDate, exDate with
  | some _, none => true
  | some n, some e =>
    if n < e then true else if n = e then decide (newGid < exGid) else false
  | none, _ => false

/-- Lookup in the ownership map (association list keyed by game id). -/
def omLookup (gid : Nat) : List (Nat × OwnEntry) → Option OwnEntry
  | [] => none
  | (k, e) :: rest => if k = gid then some e else omLookup gid rest

/-- Replace the entry of `gid` in the ownership map. -/
def omReplace (gid : Nat) (e : OwnEntry) :
    List (Nat × OwnEntry) → List (Nat × OwnEntry)
  | [] => [(gid, e)]
  | (k, e0) :: rest =>
    if k = gid then (k, e) :: rest else (k, e0) :: omReplace gid e rest

/-- Modelled from the spec: process one `(group, game)` pair against the
ownership map. -/
def processGame (m : List (Nat × OwnEntry)) (group : FRGroup) (game : FRGame) :
    List (Nat × OwnEntry) :=
  match gameKey game with
  | none => m
  | some gid =>
    match omLookup gid m with
    | none =>
      m ++ [(gid, ⟨earliestDate game, group.id, group.name, game.name⟩)]
    | some ex =>
      if shouldReplace (earliestDate game) group.id ex.earliestDate ex.groupId then
        omReplace gid ⟨earliestDate game, group.id, group.name, game.name⟩ m
      else m

/-- Modelled from the spec: `buildOwnershipMap` folds every game of every
group, in input order, into the map. -/
def buildOwnershipMap (input : List (FRGroup × List FRGame)) :
    List (Nat × OwnEntry) :=
  input.foldl (fun m pair => pair.2.foldl (fun m' g => processGame m' pair.1 g) m) []

/-! ## Concrete example data used by the witnesses -/

/-- A logo carried by the Europe-dated version. -/
def exLogoE : PlatformLogo := ⟨some "lgE".data, 1⟩

/-- A logo carried by the Japan-dated version. -/
def exLogoJ : PlatformLogo := ⟨some "lgJ".data, 2⟩

/-- A version with a Europe release dated 2020-06-01. -/
def exVersionEurope : Version :=
  { platformLogo := some exLogoE
    platformVersionReleaseDates :=
      [⟨some "2020-06-01".data, some ⟨"Europe".data⟩⟩]
    name := some "Euro Version".data }

/-- A version with a Japan release dated 2019-01-01 (earlier than the
Europe release). -/
def exVersionJapan : Version :=
  { platformLogo := some exLogoJ
    platformVersionReleaseDates :=
      [⟨some "2019-01-01".data, some ⟨"Japan".data⟩⟩]
    name := some "JP Version".data }

/-- Platform with the Japan version listed first and dated earlier. -/
def exPlatformEJ : PlatformInfo := ⟨[exVersionJapan, exVersionEurope]⟩

/-- A version with a logo but no release dates (fallback only). -/
def exVersionFallbackOnly : Version :=
  { platformLogo := some ⟨some "lgF".data, 3⟩
    platformVersionReleaseDates := []
    name := some "F".data }

/-- Platform whose only version has no release dates. -/
def exPlatformFallback : PlatformInfo := ⟨[exVersionFallbackOnly]⟩

/-- A version with release dates but whose logo lacks an `image_id`. -/
def exVersionNoImageId : Version :=
  { platformLogo := some ⟨none, 4⟩
    platformVersionReleaseDates :=
      [⟨some "2001-01-01".data, some ⟨"Europe".data⟩⟩]
    name := some "N".data }

/-- Platform whose only version carries no usable logo. -/
def exPlatformNoLogos : PlatformInfo := ⟨[exVersionNoImageId]⟩

/-- Group with id 5. -/
def exGroup5 : FRGroup := ⟨5, "A".data⟩

/-- Group with id 7. -/
def exGroup7 : FRGroup := ⟨7, "B".data⟩

/-- Game 42 as listed by group 5, first released 2001-01-01. -/
def exGameA : FRGame := ⟨some 42, "G".data, some "2001-01-01".data, []⟩

/-- Game 42 as listed by group 7, same first release date. -/
def exGameB : FRGame := ⟨some 42, "G2".data, some "2001-01-01".data, []⟩

/-! ### Collector lemmas -/

theorem batchLoop_stop (fetch : Nat → Nat → List α) (total limit offset n : Nat)
    (acc : List α) (h : ¬ offset < total) :
    ∀ fuel, batchLoop fetch total limit fuel offset acc n = (acc, n) := by
  intro fuel
  cases fuel with
  | zero => rfl
  | succ fuel => simp only [batchLoop, if_neg h]

theorem pagesFrom_stop (fetch : Nat → Nat → List α) (total limit offset : Nat)
    (h : ¬ offset < total) :
    ∀ fuel, pagesFrom fetch total limit fuel offset = [] := by
  intro fuel
  cases fuel with
  | zero => rfl
  | succ fuel => simp only [pagesFrom, if_neg h]

theorem ceilDiv_of_le (L limit : Nat) (h1 : 0 < L) (h2 : L ≤ limit) :
    ceilDiv L limit = 1 := by
  unfold ceilDiv
  exact Nat.div_eq_of_lt_le (by omega) (by omega)

theorem ceilDiv_sub (r limit : Nat) (h : limit < r) (hl : 0 < limit) :
    ceilDiv r limit = ceilDiv (r - limit) limit + 1 := by
  unfold ceilDiv
  have hr : r + limit - 1 = (r - limit + limit - 1) + limit := by omega
  rw [hr, Nat.add_div_right _ hl]

theorem batchLoop_full (fetch : Nat → Nat → List α) (total limit : Nat)
    (hl : 0 < limit) (hfull : ∀ off L, (fetch off L).length = L) :
    ∀ (fuel offset n : Nat) (acc : List α), offset < total → total - offset ≤ fuel →
      batchLoop fetch total limit fuel offset acc n
        = (acc ++ pagesFrom fetch total limit fuel offset,
           n + ceilDiv (total - offset) limit) := by
  intro fuel
  induction fuel with
  | zero => intro offset n acc h1 h2; exfalso; omega
  | succ fuel ih =>
    intro offset n acc h1 h2
    have hL1 : 0 < min limit (total - offset) := by omega
    have hne : ¬ (fetch offset (min limit (total - offset))).length = 0 := by
      rw [hfull]; omega
    simp only [batchLoop, pagesFrom, if_pos h1, if_neg hne]
    by_cases h3 : offset + min limit (total - offset) < total
    · have hlim : min limit (total - offset) = limit := by omega
      rw [ih (offset + min limit (total - offset)) (n + 1)
            (acc ++ fetch offset (min limit (total - offset))) h3 (by omega)]
      rw [List.append_assoc]
      have harith : ceilDiv (total - offset) limit
          = ceilDiv (total - (offset + min limit (total - offset))) limit + 1 := by
        rw [hlim]
        have hr : total - (offset + limit) = total - offset - limit := by omega
        rw [hr]
        exact ceilDiv_sub (total - offset) limit (by omega) hl
      rw [harith]
      simp only [Prod.mk.injEq, true_and]
      omega
    · rw [batchLoop_stop fetch total limit _ _ _ h3 fuel,
        pagesFrom_stop fetch total limit _ h3 fuel]
      rw [List.append_nil]
      have : ceilDiv (total - offset) limit = 1 := by
        exact ceilDiv_of_le _ _ (by omega) (by omega)
      rw [this]

/-! ### Deduplicator lemmas -/

theorem idSeenIn_append (i : Int) (prev : List Record) (r : Record) :
    idSeenIn i (prev ++ [r]) = (idSeenIn i prev || r.id == some i) := by
  simp [idSeenIn, List.any_append]

theorem deduplicateAux_eq_spec (l : List Record) :
    ∀ (seen : List Int) (prev : List Record),
      (∀ i : Int, i ∈ seen ↔ idSeenIn i prev = true) →
      deduplicateAux seen l = specDedupAux prev l := by
  induction l with
  | nil => intro seen prev _; rfl
  | cons r rs ih =>
    intro seen prev hinv
    cases hid : r.id with
    | none =>
      simp only [deduplicateAux, specDedupAux, hid]
      refine congrArg _ (ih seen (prev ++ [r]) ?_)
      intro i
      rw [hinv i, idSeenIn_append, hid]
      simp
    | some j =>
      simp only [deduplicateAux, specDedupAux, hid]
      by_cases hj : j ∈ seen
      · rw [if_pos hj, if_pos ((hinv j).mp hj)]
        refine ih seen (prev ++ [r]) ?_
        intro i
        rw [idSeenIn_append, hid]
        constructor
        · intro h; simp [(hinv i).mp h]
        · intro h
          rcases Bool.or_eq_true_iff.mp h with h | h
          · exact (hinv i).mpr h
          · have hji : j = i := by simpa using h
            exact hji ▸ hj
      · have hns : idSeenIn j prev = false := by
          cases hsb : idSeenIn j prev with
          | true => exact absurd ((hinv j).mpr hsb) hj
          | false => rfl
        rw [if_neg hj, if_neg (by simp [hns])]
        refine congrArg _ (ih (j :: seen) (prev ++ [r]) ?_)
        intro i
        rw [idSeenIn_append, hid]
        constructor
        · intro h
          rcases List.mem_cons.mp h with h | h
          · subst h; simp
          · simp [(hinv i).mp h]
        · intro h
          rcases Bool.or_eq_true_iff.mp h with h | h
          · exact List.mem_cons_of_mem _ ((hinv i).mpr h)
          · have hji : j = i := by simpa using h
            exact hji ▸ List.mem_cons_self _ _

theorem deduplicateAux_sublist (l : List Record) :
    ∀ seen : List Int, List.Sublist (deduplicateAux seen l) l := by
  induction l with
  | nil => intro seen; simp [deduplicateAux]
  | cons r rs ih =>
    intro seen
    cases hid : r.id with
    | none =>
      simpa only [deduplicateAux, hid] using (ih seen).cons₂ r
    | some j =>
      by_cases hj : j ∈ seen
      · simpa only [deduplicateAux, hid, if_pos hj] using (ih seen).cons r
      · simpa only [deduplicateAux, hid, if_neg hj] using (ih (j :: seen)).cons₂ r

theorem countP_deduplicateAux_of_seen (l : List Record) :
    ∀ (seen : List Int) (i : Int), i ∈ seen →
      (deduplicateAux seen l).countP (fun r => r.id == some i) = 0 := by
  induction l with
  | nil => intro seen i _; rfl
  | cons r rs ih =>
    intro seen i hi
    cases hid : r.id with
    | none =>
      simp only [deduplicateAux, hid, List.countP_cons, hid]
      simp [ih seen i hi]
    | some j =>
      by_cases hj : j ∈ seen
      · simp only [deduplicateAux, hid, if_pos hj]
        exact ih seen i hi
      · have hji : j ≠ i := fun h => hj (h ▸ hi)
        simp only [deduplicateAux, hid, if_neg hj, List.countP_cons, hid]
        simp [ih (j :: seen) i (List.mem_cons_of_mem _ hi), hji]

theorem countP_deduplicateAux_le_one (l : List Record) :
    ∀ (seen : List Int) (i : Int),
      (deduplicateAux seen l).countP (fun r => r.id == some i) ≤ 1 := by
  induction l with
  | nil => intro seen i; simp [deduplicateAux]
  | cons r rs ih =>
    intro seen i
    cases hid : r.id with
    | none =>
      simp only [deduplicateAux, hid, List.countP_cons, hid]
      simpa using ih seen i
    | some j =>
      by_cases hj : j ∈ seen
      · simp only [deduplicateAux, hid, if_pos hj]
        exact ih seen i
      · simp only [deduplicateAux, hid, if_neg hj, List.countP_cons, hid]
        by_cases hji : j = i
        · subst hji
          simp [countP_deduplicateAux_of_seen rs (j :: seen) j (List.mem_cons_self _ _)]
        · have hbe : ((some j : Option Int) == some i) = false := by simp [hji]
          rw [hbe]
          simpa using ih (j :: seen) i

theorem deduplicateAux_idem (l : List Record) :
    ∀ seen : List Int,
      deduplicateAux seen (deduplicateAux seen l) = deduplicateAux seen l := by
  induction l with
  | nil => intro seen; rfl
  | cons r rs ih =>
    intro seen
    cases hid : r.id with
    | none =>
      simp only [deduplicateAux, hid]
      rw [ih seen]
    | some j =>
      by_cases hj : j ∈ seen
      · simp only [deduplicateAux, hid, if_pos hj]
        exact ih seen
      · simp only [deduplicateAux, hid, if_neg hj]
        rw [ih (j :: seen)]

/-- C3: the deduplicator keeps, in first-seen order, exactly the records
whose id is absent or unseen so far (it agrees with the positional
spec-side rendering `specDedup`), the output is an order-preserving
sub-selection of the input (hence no longer than it), and every non-null
id occurs at most once in the output. -/
theorem C3_deduplicator_contract (records : List Record) :
    deduplicateRecords records = specDedup records ∧
    List.Sublist (deduplicateRecords records) records ∧
    (deduplicateRecords records).length ≤ records.length ∧
    ∀ i : Int, (deduplicateRecords records).countP (fun r => r.id == some i) ≤ 1 := by
  refine ⟨deduplicateAux_eq_spec records [] [] (by simp [idSeenIn]),
    deduplicateAux_sublist records [], ?_, fun i => countP_deduplicateAux_le_one records [] i⟩
  exact (deduplicateAux_sublist records []).length_le

/-- C9: the deduplicator is idempotent, also in the presence of records
with absent/null ids. -/
theorem C9_deduplicator_idempotent (records : List Record) :
    deduplicateRecords (deduplicateRecords records) = deduplicateRecords records :=
  deduplicateAux_idem records []

/-! ### Candidate-selector lemmas -/

theorem mem_insertCand (c a : Candidate) :
    ∀ l, a ∈ insertCand c l ↔ a = c ∨ a ∈ l := by
  intro l
  induction l with
  | nil => simp [insertCand]
  | cons d ds ih =>
    simp only [insertCand]
    by_cases h : dateKey d < dateKey c
    · rw [if_pos h]
      simp only [List.mem_cons, ih]
      tauto
    · rw [if_neg h]
      simp only [List.mem_cons]

theorem insertCand_ne_nil (c : Candidate) : ∀ l, insertCand c l ≠ [] := by
  intro l
  cases l with
  | nil => simp [insertCand]
  | cons d ds =>
    simp only [insertCand]
    split <;> simp

theorem mem_sortCands (a : Candidate) : ∀ l, a ∈ sortCands l ↔ a ∈ l := by
  intro l
  induction l with
  | nil => simp [sortCands]
  | cons c cs ih => simp [sortCands, mem_insertCand, ih]

theorem sortCands_eq_nil_iff (l : List Candidate) : sortCands l = [] ↔ l = [] := by
  cases l with
  | nil => simp [sortCands]
  | cons c cs =>
    simp only [sortCands]
    constructor
    · intro h; exact absurd h (insertCand_ne_nil c _)
    · intro h; exact absurd h (List.cons_ne_nil _ _)

theorem insertCand_sorted (c : Candidate) :
    ∀ l : List Candidate, l.Sorted (fun a b => dateKey a ≤ dateKey b) →
      (insertCand c l).Sorted (fun a b => dateKey a ≤ dateKey b) := by
  intro l
  induction l with
  | nil => intro _; simp [insertCand]
  | cons d ds ih =>
    intro hl
    rw [List.sorted_cons] at hl
    obtain ⟨hd, hds⟩ := hl
    simp only [insertCand]
    by_cases h : dateKey d < dateKey c
    · rw [if_pos h, List.sorted_cons]
      refine ⟨?_, ih hds⟩
      intro b hb
      rcases (mem_insertCand c b ds).mp hb with rfl | hb
      · exact le_of_lt h
      · exact hd b hb
    · rw [if_neg h, List.sorted_cons]
      refine ⟨?_, List.sorted_cons.mpr ⟨hd, hds⟩⟩
      intro b hb
      rcases List.mem_cons.mp hb with rfl | hb
      · exact le_of_not_lt h
      · exact le_trans (le_of_not_lt h) (hd b hb)

theorem sortCands_sorted (l : List Candidate) :
    (sortCands l).Sorted (fun a b => dateKey a ≤ dateKey b) := by
  induction l with
  | nil => simp [sortCands]
  | cons c cs ih => exact insertCand_sorted c _ ih

theorem sortCands_head_min (l : List Candidate) (c : Candidate)
    (rest : List Candidate) (h : sortCands l = c :: rest) :
    c ∈ l ∧ ∀ a ∈ l, dateKey c ≤ dateKey a := by
  have hs := sortCands_sorted l
  rw [h, List.sorted_cons] at hs
  constructor
  · exact (mem_sortCands c l).mp (h ▸ List.mem_cons_self c rest)
  · intro a ha
    have hmem : a ∈ c :: rest := h ▸ (mem_sortCands a l).mpr ha
    rcases List.mem_cons.mp hmem with rfl | hmem
    · exact le_refl _
    · exact hs.1 a hmem

theorem mem_datedCandidates {v : Version} {logo : PlatformLogo} {c : Candidate}
    (h : c ∈ datedCandidates v logo) : c.platformLogo = logo := by
  simp only [datedCandidates, List.mem_map] at h
  obtain ⟨rd, _, rfl⟩ := h
  rfl

theorem candidates_provenance (vs : List Version) :
    (∀ c ∈ (collectCandidates vs).1, ∃ v ∈ vs, v.platformLogo = some c.platformLogo) ∧
    (∀ c ∈ (collectCandidates vs).2, ∃ v ∈ vs, v.platformLogo = some c.platformLogo) := by
  induction vs with
  | nil => simp [collectCandidates]
  | cons v vs ih =>
    obtain ⟨ih1, ih2⟩ := ih
    cases hlogo : v.platformLogo with
    | none =>
      constructor <;> intro c hc
      · simp only [collectCandidates, hlogo] at hc
        obtain ⟨v', hv', h'⟩ := ih1 c hc
        exact ⟨v', List.mem_cons_of_mem _ hv', h'⟩
      · simp only [collectCandidates, hlogo] at hc
        obtain ⟨v', hv', h'⟩ := ih2 c hc
        exact ⟨v', List.mem_cons_of_mem _ hv', h'⟩
    | some logo =>
      by_cases htruthy : truthyImageId logo.imageId
      · cases hdates : v.platformVersionReleaseDates with
        | nil =>
          constructor <;> intro c hc
          · simp only [collectCandidates, hlogo, if_pos htruthy, hdates] at hc
            obtain ⟨v', hv', h'⟩ := ih1 c hc
            exact ⟨v', List.mem_cons_of_mem _ hv', h'⟩
          · simp only [collectCandidates, hlogo, if_pos htruthy, hdates,
              List.mem_cons] at hc
            rcases hc with rfl | hc
            · exact ⟨v, List.mem_cons_self _ _, hlogo⟩
            · obtain ⟨v', hv', h'⟩ := ih2 c hc
              exact ⟨v', List.mem_cons_of_mem _ hv', h'⟩
        | cons rd rds =>
          constructor <;> intro c hc
          · simp only [collectCandidates, hlogo, if_pos htruthy, hdates,
              List.mem_append] at hc
            rcases hc with hc | hc
            · have hcl : c.platformLogo = logo := mem_datedCandidates hc
              exact ⟨v, List.mem_cons_self _ _, hcl ▸ hlogo⟩
            · obtain ⟨v', hv', h'⟩ := ih1 c hc
              exact ⟨v', List.mem_cons_of_mem _ hv', h'⟩
          · simp only [collectCandidates, hlogo, if_pos htruthy, hdates] at hc
            obtain ⟨v', hv', h'⟩ := ih2 c hc
            exact ⟨v', List.mem_cons_of_mem _ hv', h'⟩
      · constructor <;> intro c hc
        · simp only [collectCandidates, hlogo, if_neg htruthy] at hc
          obtain ⟨v', hv', h'⟩ := ih1 c hc
          exact ⟨v', List.mem_cons_of_mem _ hv', h'⟩
        · simp only [collectCandidates, hlogo, if_neg htruthy] at hc
          obtain ⟨v', hv', h'⟩ := ih2 c hc
          exact ⟨v', List.mem_cons_of_mem _ hv', h'⟩

/-! ### Paginated-collector claims -/

/-- C1 fails on `DataCollector._query_with_batching`: with
`totalCount = 4`, `pageLimit = 2` and a source whose first page holds a
single record (fewer than the 2 requested, but more than zero), the
collector does not stop after that page: it issues a second fetch and
returns both pages with a batch count of 2, not the first page with a
batch count of 1. -/
theorem C1_short_page_counterexample :
    (exFetchShort 0 2).length < 2 ∧ 0 < (exFetchShort 0 2).length ∧
    queryWithBatching exFetchShort 4 2 = ([10, 20], 2) ∧
    queryWithBatching exFetchShort 4 2 ≠ (exFetchShort 0 2, 1) := by
  decide

/-- C1 amended: `IgdbScraper._fetch_games_batched` does stop issuing
fetches immediately after any page shorter than requested and returns
the records collected so far; `DataCollector._query_with_batching`
stops early only after a page with zero records (returning the records
collected so far, with the batch counted), while after a short but
non-empty page it keeps iterating at the next offset.  Both stops are
ordinary returns, not errors. -/
theorem C1_short_page_amended :
    (∀ (fetch : Nat → Nat → List Nat) (upper total offset fuel : Nat) (acc : List Nat),
      offset < total →
      (fetch offset (min upper (total - offset))).length < min upper (total - offset) →
      fetchGamesLoop fetch upper total (fuel + 1) offset acc
        = acc ++ fetch offset (min upper (total - offset))) ∧
    (∀ (fetch : Nat → Nat → List Nat) (total limit offset fuel n : Nat) (acc : List Nat),
      offset < total →
      (fetch offset (min limit (total - offset))).length = 0 →
      batchLoop fetch total limit (fuel + 1) offset acc n = (acc, n + 1)) ∧
    (∀ (fetch : Nat → Nat → List Nat) (total limit offset fuel n : Nat) (acc : List Nat),
      offset < total →
      0 < (fetch offset (min limit (total - offset))).length →
      batchLoop fetch total limit (fuel + 1) offset acc n
        = batchLoop fetch total limit fuel (offset + min limit (total - offset))
            (acc ++ fetch offset (min limit (total - offset))) (n + 1)) := by
  refine ⟨?_, ?_, ?_⟩
  · intro fetch upper total offset fuel acc h1 h2
    simp only [fetchGamesLoop, if_pos h1, if_pos h2]
  · intro fetch total limit offset fuel n acc h1 h2
    simp only [batchLoop, if_pos h1, if_pos h2]
    rw [List.length_eq_zero.mp h2, List.append_nil]
  · intro fetch total limit offset fuel n acc h1 h2
    have hne : ¬ (fetch offset (min limit (total - offset))).length = 0 := by omega
    simp only [batchLoop, if_pos h1, if_neg hne]

/-- Witness for C1's amended statement at concrete inputs: the scraper
loop stops right after the short page `[10]`, the collector loop returns
after an empty page counting that batch, and the collector loop keeps
going after the short non-empty page `[10]`. -/
theorem C1_short_page_amended_witness :
    (0 < 4 ∧ (exFetchShort 0 (min 2 (4 - 0))).length < min 2 (4 - 0) ∧
      fetchGamesLoop exFetchShort 2 4 (3 + 1) 0 []
        = [] ++ exFetchShort 0 (min 2 (4 - 0))) ∧
    (0 < 4 ∧ (exFetchEmpty 0 (min 2 (4 - 0))).length = 0 ∧
      batchLoop exFetchEmpty 4 2 (3 + 1) 0 [] 0 = ([], 0 + 1)) ∧
    (0 < 4 ∧ 0 < (exFetchShort 0 (min 2 (4 - 0))).length ∧
      batchLoop exFetchShort 4 2 (3 + 1) 0 [] 0
        = batchLoop exFetchShort 4 2 3 (0 + min 2 (4 - 0))
            ([] ++ exFetchShort 0 (min 2 (4 - 0))) (0 + 1)) :=
  ⟨⟨by decide, by decide,
      C1_short_page_amended.1 exFetchShort 2 4 0 3 [] (by decide) (by decide)⟩,
   ⟨by decide, by decide,
      C1_short_page_amended.2.1 exFetchEmpty 4 2 0 3 0 [] (by decide) (by decide)⟩,
   ⟨by decide, by decide,
      C1_short_page_amended.2.2 exFetchShort 4 2 0 3 0 [] (by decide) (by decide)⟩⟩

/-- C2: when every page comes back with exactly the number of records
requested for it and the page limit is positive, the collector issues
exactly `ceil(totalCount / pageLimit)` fetches and returns the
concatenation of all pages in fetch order. -/
theorem C2_full_pages (fetch : Nat → Nat → List Nat) (total limit : Nat)
    (hl : 0 < limit) (hfull : ∀ off L, (fetch off L).length = L) :
    queryWithBatching fetch total limit
      = (specCollectedPages fetch total limit, ceilDiv total limit) := by
  unfold queryWithBatching specCollectedPages
  by_cases h0 : total = 0
  · subst h0
    simp [ceilDiv, Nat.div_eq_of_lt (by omega : limit - 1 < limit)]
  · by_cases hle : total ≤ limit
    · rw [if_neg h0, if_neg h0, if_pos hle, if_pos hle,
        ceilDiv_of_le total limit (by omega) hle]
    · rw [if_neg h0, if_neg h0, if_neg hle, if_neg hle]
      rw [batchLoop_full fetch total limit hl hfull total 0 0 [] (by omega) (by omega)]
      simp

/-- Witness for C2 at `totalCount = 5`, `pageLimit = 2`: three fetches,
the concatenation of the three pages. -/
theorem C2_full_pages_witness :
    0 < 2 ∧ (∀ off L, (exFetchFull off L).length = L) ∧
    queryWithBatching exFetchFull 5 2
      = (specCollectedPages exFetchFull 5 2, ceilDiv 5 2) ∧
    queryWithBatching exFetchFull 5 2 = ([0, 1, 2, 3, 4], 3) :=
  ⟨by decide, fun off L => by simp [exFetchFull],
   C2_full_pages exFetchFull 5 2 (by decide) (fun off L => by simp [exFetchFull]),
   by decide⟩

/-- C7: with a total count of zero the collector fetches nothing and
returns the empty list; with `0 < totalCount ≤ pageLimit` it issues
exactly one fetch — requesting the original limit `pageLimit`, which
covers the whole logical need since `totalCount ≤ pageLimit` — and
returns that single page unchanged. -/
theorem C7_small_total (fetch : Nat → Nat → List Nat) (total limit : Nat) :
    queryWithBatching fetch 0 limit = ([], 0) ∧
    (0 < total → total ≤ limit →
      queryWithBatching fetch total limit = (fetch 0 limit, 1)) := by
  constructor
  · rfl
  · intro h1 h2
    unfold queryWithBatching
    rw [if_neg (by omega), if_pos h2]

/-- Witness for C7 at `totalCount = 2`, `pageLimit = 3`. -/
theorem C7_small_total_witness :
    queryWithBatching exFetchFull 0 3 = ([], 0) ∧
    0 < 2 ∧ 2 ≤ 3 ∧
    queryWithBatching exFetchFull 2 3 = (exFetchFull 0 3, 1) :=
  ⟨(C7_small_total exFetchFull 2 3).1, by decide, by decide,
   (C7_small_total exFetchFull 2 3).2 (by decide) (by decide)⟩

/-! ### Candidate-selector claims -/

/-- C4: whenever some collected candidate's region is `europe` (the
region is lowercased when the candidate is built, so the comparison is
case-insensitive on the raw data), the selector returns the logo of a
europe candidate whose date key is minimal among all europe candidates —
regardless of earlier-dated candidates in other regions. -/
theorem C4_europe_priority (p : PlatformInfo)
    (h : ∃ c ∈ (collectCandidates p.versions).1, c.region = "europe".data) :
    ∃ c ∈ (collectCandidates p.versions).1,
      c.region = "europe".data ∧
      selectBestPlatformLogo p = some c.platformLogo ∧
      ∀ c' ∈ (collectCandidates p.versions).1, c'.region = "europe".data →
        dateKey c ≤ dateKey c' := by
  obtain ⟨c0, hc0mem, hc0eu⟩ := h
  cases hv : p.versions with
  | nil =>
    rw [hv] at hc0mem
    simp [collectCandidates] at hc0mem
  | cons v vs =>
    rw [hv] at hc0mem
    have hc0E : c0 ∈ (collectCandidates (v :: vs)).1.filter
        (fun c => c.region == "europe".data) :=
      List.mem_filter.mpr ⟨hc0mem, by simp [hc0eu]⟩
    obtain ⟨e, es, hE⟩ : ∃ e es,
        sortCands ((collectCandidates (v :: vs)).1.filter
          (fun c => c.region == "europe".data)) = e :: es := by
      cases hE0 : sortCands ((collectCandidates (v :: vs)).1.filter
          (fun c => c.region == "europe".data)) with
      | nil =>
        rw [sortCands_eq_nil_iff] at hE0
        rw [hE0] at hc0E
        cases hc0E
      | cons e es => exact ⟨e, es, rfl⟩
    obtain ⟨heF, hmin⟩ := sortCands_head_min _ e es hE
    have heMem : e ∈ (collectCandidates (v :: vs)).1 := (List.mem_filter.mp heF).1
    have heEu : e.region = "europe".data := by
      simpa using (List.mem_filter.mp heF).2
    refine ⟨e, heMem, heEu, ?_, ?_⟩
    · show selectBestFromVersions p.versions = some e.platformLogo
      rw [hv]
      rcases hc : (collectCandidates (v :: vs)).1 with _ | ⟨c1, cs⟩
      · rw [hc] at heMem; cases heMem
      · rw [hc] at hE
        simp only [selectBestFromVersions, hc, hE]
    · intro c' hc' heu'
      exact hmin c' (List.mem_filter.mpr ⟨hc', by simp [heu']⟩)

/-- Witness for C4: with a Japan candidate dated 2019-01-01 listed first
and a Europe candidate dated 2020-06-01, the selector returns the Europe
logo despite the later date. -/
theorem C4_europe_priority_witness :
    (∃ c ∈ (collectCandidates exPlatformEJ.versions).1,
      c.region = "europe".data) ∧
    (∃ c ∈ (collectCandidates exPlatformEJ.versions).1,
      c.region = "europe".data ∧
      selectBestPlatformLogo exPlatformEJ = some c.platformLogo ∧
      ∀ c' ∈ (collectCandidates exPlatformEJ.versions).1,
        c'.region = "europe".data → dateKey c ≤ dateKey c') ∧
    selectBestPlatformLogo exPlatformEJ = some exLogoE :=
  ⟨by decide, C4_europe_priority exPlatformEJ (by decide), by decide⟩

/-- C6: when no dated candidate exists, the selector returns the first
fallback entry's logo when the fallback list is non-empty, and `none`
(an expected absent result, not an error) when both lists are empty. -/
theorem C6_fallback_and_none (p : PlatformInfo)
    (h : (collectCandidates p.versions).1 = []) :
    ((collectCandidates p.versions).2 = [] → selectBestPlatformLogo p = none) ∧
    (∀ f fs, (collectCandidates p.versions).2 = f :: fs →
      selectBestPlatformLogo p = some f.platformLogo) := by
  cases hv : p.versions with
  | nil =>
    constructor
    · intro _
      simp [selectBestPlatformLogo, hv, selectBestFromVersions]
    · intro f fs hf
      simp [collectCandidates] at hf
  | cons v vs =>
    rw [hv] at h
    constructor
    · intro h2
      simp only [selectBestPlatformLogo, hv, selectBestFromVersions, h, h2]
    · intro f fs hf
      simp only [selectBestPlatformLogo, hv, selectBestFromVersions, h, hf]

/-- Witness for C6: a platform whose single version has a logo but no
release dates yields the fallback logo; the empty-versions platform
yields `none`. -/
theorem C6_fallback_and_none_witness :
    (collectCandidates exPlatformFallback.versions).1 = [] ∧
    (collectCandidates exPlatformFallback.versions).2
      = [fallbackCandidate exVersionFallbackOnly ⟨some "lgF".data, 3⟩] ∧
    selectBestPlatformLogo exPlatformFallback = some ⟨some "lgF".data, 3⟩ ∧
    (collectCandidates (PlatformInfo.mk []).versions).2 = [] ∧
    selectBestPlatformLogo (PlatformInfo.mk []) = none :=
  ⟨by decide, by decide,
   (C6_fallback_and_none exPlatformFallback (by decide)).2
     (fallbackCandidate exVersionFallbackOnly ⟨some "lgF".data, 3⟩) [] (by decide),
   by decide,
   (C6_fallback_and_none (PlatformInfo.mk []) (by decide)).1 (by decide)⟩

/-- C8: the selection is a pure function of its input (the embedding is
functional, so the input record is untouched by construction), and a
non-`none` result is literally the `platform_logo` value of one of the
input versions — never a new or modified record. -/
theorem C8_result_is_input_logo (p : PlatformInfo) (logo : PlatformLogo)
    (h : selectBestPlatformLogo p = some logo) :
    ∃ v ∈ p.versions, v.platformLogo = some logo := by
  cases hv : p.versions with
  | nil =>
    simp only [selectBestPlatformLogo, hv, selectBestFromVersions] at h
    cases h
  | cons v vs =>
    simp only [selectBestPlatformLogo, hv, selectBestFromVersions] at h
    rcases hc : (collectCandidates (v :: vs)).1 with _ | ⟨c1, cs⟩
    · rcases hf : (collectCandidates (v :: vs)).2 with _ | ⟨f, fs⟩
      · simp only [hc, hf] at h
        cases h
      · simp only [hc, hf, Option.some.injEq] at h
        have hfmem : f ∈ (collectCandidates (v :: vs)).2 := by
          rw [hf]; exact List.mem_cons_self f fs
        obtain ⟨v', hv', hl⟩ := (candidates_provenance (v :: vs)).2 f hfmem
        exact ⟨v', hv', h ▸ hl⟩
    · simp only [hc] at h
      rcases hE : sortCands ((c1 :: cs).filter fun c => c.region == "europe".data)
        with _ | ⟨e, es⟩
      · rcases hJ : sortCands ((c1 :: cs).filter fun c => c.region == "japan".data)
          with _ | ⟨j, js⟩
        · rcases hA : sortCands (c1 :: cs) with _ | ⟨a0, as⟩
          · rw [sortCands_eq_nil_iff] at hA
            exact absurd hA (List.cons_ne_nil _ _)
          · simp only [hE, hJ, hA, Option.some.injEq] at h
            have ha0 : a0 ∈ (collectCandidates (v :: vs)).1 := by
              rw [hc]
              exact (mem_sortCands a0 _).mp (by rw [hA]; exact List.mem_cons_self _ _)
            obtain ⟨v', hv', hl⟩ := (candidates_provenance (v :: vs)).1 a0 ha0
            exact ⟨v', hv', h ▸ hl⟩
        · simp only [hE, hJ, Option.some.injEq] at h
          have hjmem : j ∈ (collectCandidates (v :: vs)).1 := by
            rw [hc]
            have hjf : j ∈ (c1 :: cs).filter (fun c => c.region == "japan".data) :=
              (mem_sortCands j _).mp (by rw [hJ]; exact List.mem_cons_self _ _)
            exact (List.mem_filter.mp hjf).1
          obtain ⟨v', hv', hl⟩ := (candidates_provenance (v :: vs)).1 j hjmem
          exact ⟨v', hv', h ▸ hl⟩
      · simp only [hE, Option.some.injEq] at h
        have hemem : e ∈ (collectCandidates (v :: vs)).1 := by
          rw [hc]
          have hef : e ∈ (c1 :: cs).filter (fun c => c.region == "europe".data) :=
            (mem_sortCands e _).mp (by rw [hE]; exact List.mem_cons_self _ _)
          exact (List.mem_filter.mp hef).1
        obtain ⟨v', hv', hl⟩ := (candidates_provenance (v :: vs)).1 e hemem
        exact ⟨v', hv', h ▸ hl⟩

/-- Witness for C8: the selected logo of the concrete platform is exactly
the Europe version's stored logo value. -/
theorem C8_result_is_input_logo_witness :
    selectBestPlatformLogo exPlatformEJ = some exLogoE ∧
    ∃ v ∈ exPlatformEJ.versions, v.platformLogo = some exLogoE :=
  ⟨by decide, C8_result_is_input_logo exPlatformEJ exLogoE (by decide)⟩

theorem collectCandidates_excluded_cons (v : Version) (hvex : logoExcluded v = true)
    (l : List Version) : collectCandidates (v :: l) = collectCandidates l := by
  cases hlogo : v.platformLogo with
  | none => simp only [collectCandidates, hlogo]
  | some logo =>
    have ht : truthyImageId logo.imageId = false := by
      simp only [logoExcluded, hlogo, Bool.not_eq_true'] at hvex
      exact hvex
    simp only [collectCandidates, hlogo, ht, if_neg Bool.false_ne_true]

theorem collectCandidates_cons_congr (v : Version) {l1 l2 : List Version}
    (h : collectCandidates l1 = collectCandidates l2) :
    collectCandidates (v :: l1) = collectCandidates (v :: l2) := by
  simp only [collectCandidates, h]

theorem collectCandidates_all_excluded (l : List Version)
    (h : ∀ v ∈ l, logoExcluded v = true) : collectCandidates l = ([], []) := by
  induction l with
  | nil => rfl
  | cons v vs ih =>
    rw [collectCandidates_excluded_cons v (h v (List.mem_cons_self _ _)) vs]
    exact ih fun v' hv' => h v' (List.mem_cons_of_mem _ hv')

/-- C10: a version whose `platform_logo` is missing, empty, or without a
truthy `image_id` contributes neither a dated candidate nor a fallback
entry (removing it from any position leaves the collected candidates
unchanged); consequently a platform none of whose versions carries a
usable logo selects `none`, even when release dates are present. -/
theorem C10_excluded_versions (v : Version) (p : PlatformInfo)
    (hvex : logoExcluded v = true)
    (hall : ∀ w ∈ p.versions, logoExcluded w = true) :
    (∀ pre post : List Version,
      collectCandidates (pre ++ v :: post) = collectCandidates (pre ++ post)) ∧
    selectBestPlatformLogo p = none := by
  constructor
  · intro pre post
    induction pre with
    | nil => simpa using collectCandidates_excluded_cons v hvex post
    | cons q pre ih =>
      simp only [List.cons_append]
      exact collectCandidates_cons_congr q ih
  · cases hv : p.versions with
    | nil => simp [selectBestPlatformLogo, hv, selectBestFromVersions]
    | cons w ws =>
      have hcoll : collectCandidates (w :: ws) = ([], []) := by
        apply collectCandidates_all_excluded
        rw [hv] at hall
        exact hall
      simp only [selectBestPlatformLogo, hv, selectBestFromVersions, hcoll]

/-- Witness for C10: a version with release dates but an `image_id`-less
logo contributes nothing anywhere in the list, and a platform holding
only that version selects no logo despite its release dates. -/
theorem C10_excluded_versions_witness :
    logoExcluded exVersionNoImageId = true ∧
    (∀ w ∈ exPlatformNoLogos.versions, logoExcluded w = true) ∧
    collectCandidates ([] ++ exVersionNoImageId :: [exVersionEurope])
      = collectCandidates ([] ++ [exVersionEurope]) ∧
    selectBestPlatformLogo exPlatformNoLogos = none :=
  ⟨by decide, by decide,
   (C10_excluded_versions exVersionNoImageId exPlatformNoLogos
      (by decide) (by decide)).1 [] [exVersionEurope],
   (C10_excluded_versions exVersionNoImageId exPlatformNoLogos
      (by decide) (by decide)).2⟩

/-! ### First-release resolver claim (modelled from the spec) -/

/-- C5: two groups claiming the same game id with identical (present)
earliest dates resolve to the numerically lower group id, whichever of
the two is processed first. -/
theorem C5_tiebreak_lower_group_id (g1 g2 : FRGroup) (a b : FRGame) (gid : Nat)
    (d : Str) (ha : gameKey a = some gid) (hb : gameKey b = some gid)
    (hda : earliestDate a = some d) (hdb : earliestDate b = some d) :
    ((omLookup gid (buildOwnershipMap [(g1, [a]), (g2, [b])])).map OwnEntry.groupId
        = some (min g1.id g2.id)) ∧
    ((omLookup gid (buildOwnershipMap [(g2, [b]), (g1, [a])])).map OwnEntry.groupId
        = some (min g1.id g2.id)) := by
  constructor
  · by_cases hlt : g2.id < g1.id
    · simp [buildOwnershipMap, processGame, ha, hb, hda, hdb, omLookup, omReplace,
        shouldReplace, hlt]
      omega
    · simp [buildOwnershipMap, processGame, ha, hb, hda, hdb, omLookup, omReplace,
        shouldReplace, hlt]
      omega
  · by_cases hlt : g1.id < g2.id
    · simp [buildOwnershipMap, processGame, ha, hb, hda, hdb, omLookup, omReplace,
        shouldReplace, hlt]
      omega
    · simp [buildOwnershipMap, processGame, ha, hb, hda, hdb, omLookup, omReplace,
        shouldReplace, hlt]
      omega

/-- Witness for C5: groups 5 and 7 both claim game 42 with the same
earliest date; group 5 owns it in both processing orders. -/
theorem C5_tiebreak_lower_group_id_witness :
    gameKey exGameA = some 42 ∧ gameKey exGameB = some 42 ∧
    earliestDate exGameA = some "2001-01-01".data ∧
    earliestDate exGameB = some "2001-01-01".data ∧
    ((omLookup 42 (buildOwnershipMap [(exGroup5, [exGameA]), (exGroup7, [exGameB])])).map
        OwnEntry.groupId = some (min exGroup5.id exGroup7.id)) ∧
    ((omLookup 42 (buildOwnershipMap [(exGroup7, [exGameB]), (exGroup5, [exGameA])])).map
        OwnEntry.groupId = some (min exGroup5.id exGroup7.id)) ∧
    min exGroup5.id exGroup7.id = 5 :=
  ⟨by decide, by decide, by decide, by decide,
   (C5_tiebreak_lower_group_id exGroup5 exGroup7 exGameA exGameB 42 ("2001-01-01".data)
      (by decide) (by decide) (by decide) (by decide)).1,
   (C5_tiebreak_lower_group_id exGroup5 exGroup7 exGameA exGameB 42 ("2001-01-01".data)
      (by decide) (by decide) (by decide) (by decide)).2,
   by decide⟩

end ZLA
